import Mathlib

/-!
Verification of the flow-graph construction and lowering layer
(`numba/control_flow/flowy.py`).

The Python module is embedded shallowly: object identity becomes explicit
ids (natural numbers), attribute mutation becomes explicit state passing on
a heap of variable, operation and block records, and code that can raise
(`list.index`, dictionary lookups, `assert`) returns `Except`.

The basic-block edge primitive (`numba.control_flow.basicblocks.BasicBlock`)
is not part of the sources under verification; its edge operations are
modelled from the specification (see the definitions marked
"Modelled from the spec").
-/

namespace Flowy

/-! ## Decimal rendering (embedding of Python `str` on a nonnegative int) -/

/-- Digits of a natural number in base 10, least significant digit first.
The first argument is structural fuel; `fuel > n` always suffices. -/
def digitsRev : Nat → Nat → List Nat
  | 0, _ => []
  | fuel + 1, n => if n < 10 then [n] else n % 10 :: digitsRev fuel (n / 10)

/-- Character for a single decimal digit. -/
def digitChar : Nat → Char
  | 0 => '0'
  | 1 => '1'
  | 2 => '2'
  | 3 => '3'
  | 4 => '4'
  | 5 => '5'
  | 6 => '6'
  | 7 => '7'
  | 8 => '8'
  | 9 => '9'
  | _ => '?'

/-- Numeric value of a decimal digit character (left inverse of `digitChar`). -/
def digitVal : Char → Nat
  | '0' => 0
  | '1' => 1
  | '2' => 2
  | '3' => 3
  | '4' => 4
  | '5' => 5
  | '6' => 6
  | '7' => 7
  | '8' => 8
  | '9' => 9
  | _ => 0

/-- Decimal string of a natural number: the embedding of Python `str(count)`
and of the `%d` format directive. -/
def natStr (n : Nat) : String :=
  ⟨((digitsRev (n + 1) n).reverse.map digitChar)⟩

/-- Value of a little-endian decimal digit list. -/
def ofDigitsRev : List Nat → Nat
  | [] => 0
  | d :: ds => d + 10 * ofDigitsRev ds

/-! ## Association-list lookup (embedding of dict / defaultdict reads) -/

/-- Lookup in an association list; entries are prepended on write, so the
first hit is the most recent one, matching mutable dictionary semantics. -/
def lookupA {α β : Type} [DecidableEq α] : List (α × β) → α → Option β
  | [], _ => none
  | (k, v) :: t, key => if k = key then some v else lookupA t key

/-! ## Naming service (`make_temper` / `temper`, flowy.py lines 17-30) -/

/-- State of one naming-service instance: the `temps` defaultdict mapping a
base name to its occurrence counter. -/
abbrev TemperState := List (String × Nat)

/-- One call of the closure returned by `make_temper`: read the counter for
`name` (zero when absent), bump it, and render the result exactly as the
source does (`name` when the name is nonempty and fresh, `name_count` for a
nonempty repeat, `str(count)` for the empty name). -/
def temper (t : TemperState) (name : String) : String × TemperState :=
  let count := (lookupA t name).getD 0
  let t' := (name, count + 1) :: t
  let res :=
    if name ≠ "" then (if count = 0 then name else name ++ "_" ++ natStr count)
    else natStr count
  (res, t')

/-- Outputs of `k` successive `temper` calls with the same base name. -/
def temperSeq (t : TemperState) (name : String) : Nat → List String
  | 0 => []
  | k + 1 =>
    let r := temper t name
    r.1 :: temperSeq r.2 name k

/-! ## Value / Operation model (flowy.py lines 150-293) -/

/-- Opcode metadata (`class Opcode`); the `exceptions` set is not used by any
algorithm in the module and is omitted. -/
structure Opcode where
  op : String
  sideeffects : Bool := true
  canfold : Bool := false
  read : Bool := true
deriving DecidableEq

/-- An operation argument: a `Variable` (by heap id) or a `Constant` wrapping
a literal value (`class Variable` / `class Constant`, both `Value`s). -/
inductive Value where
  | var (id : Nat)
  | const (pyval : Int)
deriving DecidableEq

/-- Embedding of `Value.is_var`. -/
def Value.is_var : Value → Bool
  | .var _ => true
  | .const _ => false

/-- Embedding of `Value.is_const`. -/
def Value.is_const : Value → Bool
  | .var _ => false
  | .const _ => true

/-- Heap record for `class Operation`: opcode, ordered argument list, and the
`result` variable set by `create_variable`. -/
structure OperationData where
  opcode : Opcode := { op := "" }
  args : List Value := []
  result : Option Nat := none
deriving DecidableEq

/-- Heap record for `class Variable`: name, defining operation (heap id) and
the use list (ids of variables whose operations use this one). The unused
`type` attribute is omitted. -/
structure VariableData where
  name : String := ""
  operation : Nat := 0
  uses : List Nat := []
deriving DecidableEq

/-- Heap record for `class Block`: sequential id, temper-assigned label,
optional source position, owning graph (by name), instruction list, and the
parent/child edge lists kept by the basic-block primitive. -/
structure BlockData where
  id : Nat := 0
  label : String := ""
  pos : Option Nat := none
  funcgraph : Option String := none
  instrs : List Nat := []
  parents : List Nat := []
  children : List Nat := []
deriving DecidableEq

/-- Combined heap and builder state: the variable/operation/block heaps with
their allocation counters, the `FunctionGraph` fields (`name`, `blocks`,
`temper`), and the `OperationBuilder`'s own `block_temper`. -/
structure BState where
  vars : Nat → VariableData := fun _ => {}
  nvars : Nat := 0
  ops : Nat → OperationData := fun _ => {}
  nops : Nat := 0
  blocks : Nat → BlockData := fun _ => {}
  nblocks : Nat := 0
  fgName : String := ""
  fgBlocks : List Nat := []
  fgTemper : TemperState := []
  blockTemper : TemperState := []

/-- Fresh builder over a fresh `FunctionGraph(name)`. -/
def initState (name : String) : BState := { fgName := name }

/-- Update one block record in place. -/
def modifyBlock (s : BState) (i : Nat) (f : BlockData → BlockData) : BState :=
  { s with blocks := Function.update s.blocks i (f (s.blocks i)) }

/-- Update one variable record in place. -/
def modifyVar (s : BState) (i : Nat) (f : VariableData → VariableData) : BState :=
  { s with vars := Function.update s.vars i (f (s.vars i)) }

/-! ## Edge primitive.

Modelled from the spec: the `basicblocks.BasicBlock` edge bookkeeping is not
among the sources; per the specification it exposes `add_parents(*blocks)`,
`add_children(*blocks)`, `detach_parents()`, `detach_children()` and read
access to `children`/`parents`, keeps the two directions consistent (adding
an edge records it on both endpoints, detaching removes it from both), and
keeps children in a significant order (the lowering stage branches to the
first and second child in order). -/

/-- Modelled from the spec: record the edge `p → c` on both endpoints. -/
def addEdge (s : BState) (p c : Nat) : BState :=
  let s1 := modifyBlock s p (fun b => { b with children := b.children ++ [c] })
  modifyBlock s1 c (fun b => { b with parents := b.parents ++ [p] })

/-- Modelled from the spec: `block.add_parents(*ps)`. -/
def add_parents (s : BState) (b : Nat) (ps : List Nat) : BState :=
  ps.foldl (fun s p => addEdge s p b) s

/-- Modelled from the spec: `block.add_children(*cs)`. -/
def add_children (s : BState) (b : Nat) (cs : List Nat) : BState :=
  cs.foldl (fun s c => addEdge s b c) s

/-- Modelled from the spec: `block.detach_children()` removes every outgoing
edge from both endpoints. -/
def detach_children (s : BState) (b : Nat) : BState :=
  let cs := (s.blocks b).children
  let s1 := cs.foldl
    (fun s c => modifyBlock s c (fun bd => { bd with parents := bd.parents.filter (fun p => p != b) })) s
  modifyBlock s1 b (fun bd => { bd with children := [] })

/-- Modelled from the spec: `block.detach_parents()` removes every incoming
edge from both endpoints. -/
def detach_parents (s : BState) (b : Nat) : BState :=
  let ps := (s.blocks b).parents
  let s1 := ps.foldl
    (fun s p => modifyBlock s p (fun bd => { bd with children := bd.children.filter (fun c => c != b) })) s
  modifyBlock s1 b (fun bd => { bd with parents := [] })

/-- Embedding of `Block.append`. -/
def block_append (s : BState) (b instr : Nat) : BState :=
  modifyBlock s b (fun bd => { bd with instrs := bd.instrs ++ [instr] })

/-! ## OperationBuilder (flowy.py lines 71-147) -/

/-- Failure modes of the embedded code: Python exceptions and `assert`
violations, tagged by site. -/
inductive Err where
  | valueError
  | keyError
  | indexError
  | assertEmptyBlocks
  | assertIsTerminator
  | assertIsCondBranch
  | assertChildCount
deriving DecidableEq

/-- Base name used by `add_block`: `name or "block"` (a missing or empty
name falls back to `"block"`). -/
def blockBaseName : Option String → String
  | some nm => if nm = "" then "block" else nm
  | none => "block"

/-- Embedding of `OperationBuilder.add_block`: temper a label from the
builder's `block_temper`, allocate a `Block` whose `id` is the current length
of `funcgraph.blocks`, append it to the graph's block list, and wire each
given parent. Returns the new block's heap id. -/
def add_block (s : BState) (parents : List Nat) (nameOpt : Option String)
    (pos : Option Nat) : Nat × BState :=
  let r := temper s.blockTemper (blockBaseName nameOpt)
  let bid := s.nblocks
  let bd : BlockData :=
    { id := s.fgBlocks.length, label := r.1, pos := pos, funcgraph := some s.fgName }
  let s1 : BState :=
    { s with
      blocks := Function.update s.blocks bid bd
      nblocks := bid + 1
      fgBlocks := s.fgBlocks ++ [bid]
      blockTemper := r.2 }
  (bid, parents.foldl (fun s p => addEdge s p bid) s1)

/-- Embedding of `OperationBuilder.create_variable`: temper a variable name
from the builder's `block_temper` (the same instance `add_block` draws block
labels from), allocate the `Variable`, set it as `operation.result`, and
append it to the use list of every argument that is a `Variable`. -/
def create_variable (s : BState) (opId : Nat) (name : String) : Nat × BState :=
  let r := temper s.blockTemper name
  let vid := s.nvars
  let s1 : BState :=
    { s with
      vars := Function.update s.vars vid { name := r.1, operation := opId, uses := [] }
      nvars := vid + 1
      blockTemper := r.2 }
  let s2 := { s1 with ops := Function.update s1.ops opId { s1.ops opId with result := some vid } }
  let s3 := (s2.ops opId).args.foldl
    (fun s a =>
      match a with
      | Value.var i => modifyVar s i (fun v => { v with uses := v.uses ++ [vid] })
      | Value.const _ => s) s2
  (vid, s3)

/-- Embedding of `OperationBuilder.op`: allocate an unlinked `Operation` and
run `create_variable` on it. -/
def op (s : BState) (opcode : Opcode) (args : List Value) (name : String) : Nat × BState :=
  let oid := s.nops
  let s1 : BState :=
    { s with
      ops := Function.update s.ops oid { opcode := opcode, args := args, result := none }
      nops := oid + 1 }
  create_variable s1 oid name

/-- First index of an element in a list: the embedding of Python
`list.index`, which finds the first occurrence and raises when absent. -/
def indexOf : List Nat → Nat → Option Nat
  | [], _ => none
  | a :: l, x => if a = x then some 0 else (indexOf l x).map (· + 1)

/-- Embedding of `OperationBuilder.splitblock`: detach `block`'s children,
allocate a successor block parented on `block`, give it the saved children,
and split the instruction list at the first occurrence of `instr` (`block`
keeps the strict prefix, the new block receives the rest). `ValueError` when
`instr` is not present. -/
def splitblock (s : BState) (block instr : Nat) (nameOpt : Option String) :
    Except Err (Nat × BState) :=
  let children := (s.blocks block).children
  let s1 := detach_children s block
  let r := add_block s1 [block] nameOpt none
  let newblock := r.1
  let s2 := add_children r.2 newblock children
  let instrs := (s2.blocks block).instrs
  match indexOf instrs instr with
  | none => .error .valueError
  | some i =>
    let s3 := modifyBlock s2 block (fun bd => { bd with instrs := instrs.take i })
    let s4 := modifyBlock s3 newblock (fun bd => { bd with instrs := instrs.drop i })
    .ok (newblock, s4)

/-- Embedding of `OperationBuilder.if_then_else`, statement for statement:
create `cond_block` as a child of `block` and append `condition` to it, then
split `block` at `instr` into `exit_block`, detach `exit_block`'s parents,
create the `if` arm (and the `else` arm when `else_body` is nonempty,
otherwise reuse `cond_block`), and finally add both arms as parents of
`exit_block`. -/
def if_then_else (s : BState) (block instr condition : Nat)
    (if_body : List Nat) (else_body : List Nat) : Except Err BState :=
  let r := add_block s [block] none none
  let cond_block := r.1
  let s1 := block_append r.2 cond_block condition
  match splitblock s1 block instr none with
  | .error e => .error e
  | .ok (exit_block, s2) =>
    let s3 := detach_parents s2 exit_block
    let r2 := add_block s3 [cond_block] none none
    let if_block := r2.1
    let s4 := modifyBlock r2.2 if_block (fun bd => { bd with instrs := if_body })
    let r3 :=
      if else_body ≠ [] then
        let r4 := add_block s4 [cond_block] none none
        (r4.1, modifyBlock r4.2 r4.1 (fun bd => { bd with instrs := else_body }))
      else (cond_block, s4)
    .ok (add_parents r3.2 exit_block [if_block, r3.1])

/-! ## OperationContext (flowy.py lines 312-334) and the lowering stage
(flowy.py lines 350-514). -/

/-- The pluggable semantic-query interface. The classification methods are
abstract in the source (`NotImplementedError`) and are supplied by the
target, so they are unconstrained function components here. The source's
`make_llvm_graph` calls `is_return` once on an `Operation` receiver is never
exercised: line 491 passes the *Block object* `blocks[-1]`; a dynamically
typed method can behave differently on the two receiver kinds, so the model
splits it into `is_return_op` (the declared `is_return(operation)` contract)
and `is_return_block` (what the call with a Block receiver computes).
`get_condition` defaults to `args[0]` and `opname` to `str(opcode.op)`,
exactly as the base class. -/
structure OperationContext where
  is_terminator : OperationData → Bool
  is_return_op : OperationData → Bool
  is_return_block : BlockData → Bool
  is_conditional_branch : OperationData → Bool
  is_boolean_operation : OperationData → Bool
  get_condition : OperationData → Option Value := fun o => o.args.head?
  opname : Opcode → String := fun oc => oc.op

/-- Embedding of `OperationContext.is_pure` (concrete in the base class). -/
def is_pure (o : OperationData) : Bool :=
  !o.opcode.sideeffects && o.opcode.canfold

/-- Abstract low-level instruction emitted through `LLVMBuilder`: an
abstract call (symbol name, boolean-result flag, argument values, fresh
result value), an unconditional branch, a two-way conditional branch, or a
return of the null value of the opaque type. Blocks and values are ids. -/
inductive LLInstr where
  | call (symbol : String) (boolResult : Bool) (args : List Nat) (result : Nat)
  | br (dest : Nat)
  | condbr (cond : Nat) (ifTrue ifFalse : Nat)
  | retNull
deriving DecidableEq

/-- State of one `LLVMMapper` run: the untouched source graph (`base`), the
`llvm_values` and `llvm_blocks` dictionaries, the names and instruction
lists of the allocated low-level blocks, the fresh-value counter, and the
builder's insertion point. -/
structure MState where
  base : BState
  llvm_values : List (Nat × Nat) := []
  llvm_blocks : List (Nat × Nat) := []
  llvmNames : List String := []
  code : List (List LLInstr) := []
  nextVal : Nat := 0
  insertPt : Nat := 0

/-- Append one instruction at a low-level block (the builder's current
insertion point). -/
def appendAt (code : List (List LLInstr)) (i : Nat) (instr : LLInstr) : List (List LLInstr) :=
  code.set i (code.getD i [] ++ [instr])

/-- Variable ids among an argument list, in order: the source's
`[... for arg in args if arg.is_var]` filter. -/
def varIds : List Value → List Nat
  | [] => []
  | Value.var i :: l => i :: varIds l
  | Value.const _ :: l => varIds l

/-- Look up each variable argument in `llvm_values`; any miss is the
dictionary `KeyError` of the source. -/
def lookupAll (m : List (Nat × Nat)) : List Nat → Option (List Nat)
  | [] => some []
  | i :: l =>
    match lookupA m i with
    | none => none
    | some v =>
      match lookupAll m l with
      | none => none
      | some vs => some (v :: vs)

/-- Embedding of `LLVMMapper.llvm_operation`: synthesize the external symbol
name as the opcode name with the full argument count appended, pick the
boolean result type iff `is_boolean_operation`, and emit one abstract call.
Returns the call's result value. -/
def llvm_operation (ctx : OperationContext) (ms : MState) (o : OperationData)
    (llvm_args : List Nat) : MState × Nat :=
  let name := ctx.opname o.opcode ++ "_" ++ natStr o.args.length
  let v := ms.nextVal
  ({ ms with
      code := appendAt ms.code ms.insertPt (LLInstr.call name (ctx.is_boolean_operation o) llvm_args v)
      nextVal := v + 1 }, v)

/-- Embedding of `LLVMMapper.process_op`: look up the already-lowered values
of the Variable arguments only, emit the call, and record the result keyed
by the processed variable. -/
def process_op (ctx : OperationContext) (ms : MState) (v : Nat) : MState × Except Err Unit :=
  let o := ms.base.ops ((ms.base.vars v).operation)
  match lookupAll ms.llvm_values (varIds o.args) with
  | none => (ms, .error .keyError)
  | some args =>
    let r := llvm_operation ctx ms o args
    ({ r.1 with llvm_values := (v, r.2) :: r.1.llvm_values }, .ok ())

/-- Process a list of instructions in order, stopping at the first error. -/
def processOps (ctx : OperationContext) : MState → List Nat → MState × Except Err Unit
  | ms, [] => (ms, .ok ())
  | ms, v :: vs =>
    match process_op ctx ms v with
    | (ms', .ok _) => processOps ctx ms' vs
    | e => e

/-- Embedding of `LLVMMapper.terminate_block`: take the last instruction's
operation, assert it classifies as a terminator and as a conditional branch,
assert exactly two children, look up the lowered value of the operation's
condition, and emit a two-way conditional branch to the two mapped children
in child order. -/
def terminate_block (ctx : OperationContext) (ms : MState) (b : Nat) : MState × Except Err Unit :=
  let bd := ms.base.blocks b
  match bd.instrs.getLast? with
  | none => (ms, .error .indexError)
  | some v =>
    let o := ms.base.ops ((ms.base.vars v).operation)
    if ctx.is_terminator o = false then (ms, .error .assertIsTerminator)
    else if ctx.is_conditional_branch o = false then (ms, .error .assertIsCondBranch)
    else
      match bd.children with
      | [succ1, succ2] =>
        match ctx.get_condition o with
        | none => (ms, .error .indexError)
        | some (Value.const _) => (ms, .error .keyError)
        | some (Value.var cv) =>
          match lookupA ms.llvm_values cv with
          | none => (ms, .error .keyError)
          | some lcond =>
            match lookupA ms.llvm_blocks succ1, lookupA ms.llvm_blocks succ2 with
            | some l1, some l2 =>
              ({ ms with code := appendAt ms.code ms.insertPt (LLInstr.condbr lcond l1 l2) }, .ok ())
            | _, _ => (ms, .error .keyError)
      | _ => (ms, .error .assertChildCount)

/-- Emission for one graph block (the body of the second loop of
`make_llvm_graph`): set the insertion point to the mapped block, process
every instruction but the last, then either process the last instruction
and emit an unconditional branch (exactly one child) or hand the block to
`terminate_block` (any other child count, provided there are instructions). -/
def emitBlock (ctx : OperationContext) (ms : MState) (b : Nat) : MState × Except Err Unit :=
  match lookupA ms.llvm_blocks b with
  | none => (ms, .error .keyError)
  | some lb =>
    let ms0 := { ms with insertPt := lb }
    let bd := ms0.base.blocks b
    match processOps ctx ms0 bd.instrs.dropLast with
    | (ms1, .error e) => (ms1, .error e)
    | (ms1, .ok _) =>
      match bd.children with
      | [succ] =>
        let r : MState × Except Err Unit :=
          match bd.instrs.getLast? with
          | none => (ms1, .ok ())
          | some v => process_op ctx ms1 v
        match r with
        | (ms2, .error e) => (ms2, .error e)
        | (ms2, .ok _) =>
          match lookupA ms2.llvm_blocks succ with
          | none => (ms2, .error .keyError)
          | some ls =>
            ({ ms2 with code := appendAt ms2.code ms2.insertPt (LLInstr.br ls) }, .ok ())
      | _ =>
        if bd.instrs ≠ [] then terminate_block ctx ms1 b
        else (ms1, .ok ())

/-- Emission loop over the graph's blocks in order. -/
def emitBlocks (ctx : OperationContext) : MState → List Nat → MState × Except Err Unit
  | ms, [] => (ms, .ok ())
  | ms, b :: bs =>
    match emitBlock ctx ms b with
    | (ms', .ok _) => emitBlocks ctx ms' bs
    | e => e

/-- Block-allocation loop of `make_llvm_graph`: one low-level block per
graph block, named `block_` plus the block's label, recorded in
`llvm_blocks`. -/
def allocBlocks (s : BState) : MState :=
  s.fgBlocks.foldl
    (fun ms b =>
      { ms with
        llvm_blocks := (b, ms.code.length) :: ms.llvm_blocks
        llvmNames := ms.llvmNames ++ ["block_" ++ (s.blocks b).label]
        code := ms.code ++ [[]] })
    { base := s }

/-- Last element with a default (for the leftover loop variable and
`blocks[-1]`). -/
def lastD : List Nat → Nat → Nat
  | [], d => d
  | [x], _ => x
  | _ :: x :: xs, d => lastD (x :: xs) d

/-- Embedding of `LLVMMapper.make_llvm_graph`: assert the graph has blocks,
allocate the low-level blocks, emit every block body, and finally, when the
last block has no instructions or `is_return` applied to the *Block object*
`blocks[-1]` is false, append a return of the null value of the opaque type
at the current insertion point. Verification by the external library is
outside the model. -/
def make_llvm_graph (ctx : OperationContext) (s : BState) : MState × Except Err Unit :=
  let ms0 := allocBlocks s
  match s.fgBlocks with
  | [] => (ms0, .error .assertEmptyBlocks)
  | b0 :: bs =>
    match emitBlocks ctx ms0 (b0 :: bs) with
    | (ms, .error e) => (ms, .error e)
    | (ms, .ok _) =>
      let lastB := ms.base.blocks (lastD (b0 :: bs) 0)
      if lastB.instrs = [] ∨ ctx.is_return_block lastB = false then
        ({ ms with code := appendAt ms.code ms.insertPt LLInstr.retNull }, .ok ())
      else (ms, .ok ())

/-- Projection used by the closed theorems: the error of a run, if any. -/
def errOf {α : Type} : Except Err α → Option Err
  | .error e => some e
  | .ok _ => none

/-- Projection used by the closed theorems: did the run succeed. -/
def isOkE {α : Type} : Except Err α → Bool
  | .error _ => false
  | .ok _ => true

/-- Projection used by the closed theorems: the resulting state of a
successful builder edit. -/
def okStateD : Except Err BState → BState
  | .ok s => s
  | .error _ => initState ""

/-- Projection used by the closed theorems: the result of a successful
`splitblock`. -/
def okSplitD : Except Err (Nat × BState) → Nat × BState
  | .ok p => p
  | .error _ => (0, initState "")

/-! ## Concrete scenarios used by the closed theorems -/

/-- End-to-end scenario of the spec: `FunctionGraph("f")`, one entry block
holding a single pure binary add of the constants 2 and 3, no children. -/
def c1build : BState :=
  let rv := op (initState "f") { op := "add", sideeffects := false, canfold := true }
      [Value.const 2, Value.const 3] ""
  let rb := add_block rv.2 [] none none
  block_append rb.2 rb.1 rv.1

/-- A conventional operation context: `br`/`cbr`/`ret` are terminators,
`ret` is the return, `cbr` the conditional branch; the binary add is none
of these. -/
def ctxA : OperationContext :=
  { is_terminator := fun o => o.opcode.op == "br" || o.opcode.op == "cbr" || o.opcode.op == "ret"
    is_return_op := fun o => o.opcode.op == "ret"
    is_return_block := fun _ => false
    is_conditional_branch := fun o => o.opcode.op == "cbr"
    is_boolean_operation := fun _ => false }

/-- A degenerate context classifying every operation as everything, to show
the scenario of `c1build` fails on the child-count assertion even then. -/
def ctxAllTrue : OperationContext :=
  { is_terminator := fun _ => true
    is_return_op := fun _ => true
    is_return_block := fun _ => true
    is_conditional_branch := fun _ => true
    is_boolean_operation := fun _ => false }

/-- Diamond scenario: block 0 with instructions `[var 0, var 1]` and one
child block 1; variables 2, 3, 4 serve as condition, `if` body and `else`
body for `if_then_else` at `var 1`. -/
def c2build : BState :=
  let r0 := add_block (initState "g2") [] none none
  let r1 := add_block r0.2 [r0.1] none none
  let ri0 := op r1.2 { op := "x" } [] ""
  let ri1 := op ri0.2 { op := "br" } [] ""
  let rc := op ri1.2 { op := "cond" } [] ""
  let rt := op rc.2 { op := "t" } [] ""
  let re := op rt.2 { op := "e" } [] ""
  let s := block_append re.2 0 0
  block_append s 0 1

/-- Result of running `if_then_else` on the diamond scenario. In the heap,
block 2 is `cond_block`, block 3 is `exit_block`, blocks 4 and 5 are the
two arms. -/
def c2res : Except Err BState := if_then_else c2build 0 1 2 [3] [4]

/-- Final state of the diamond scenario. -/
def c2s : BState := okStateD c2res

/-- Return-terminated scenario: one block whose single instruction is a
`ret` operation, with a single (self-loop) child so the emission loop
succeeds, lowered under a context that classifies `ret` operations as
returns. -/
def c5build : BState :=
  let rv := op (initState "g5") { op := "ret" } [] ""
  let rb := add_block rv.2 [] none none
  let s := block_append rb.2 rb.1 rv.1
  add_children s rb.1 [rb.1]

/-- Context for the return scenario: `ret` operations are terminators and
returns; applied to a Block receiver, `is_return` inspects attributes a
Block does not have, modelled as `false`. -/
def ctx5 : OperationContext :=
  { is_terminator := fun o => o.opcode.op == "ret"
    is_return_op := fun o => o.opcode.op == "ret"
    is_return_block := fun _ => false
    is_conditional_branch := fun _ => false
    is_boolean_operation := fun _ => false }

/-- Duplicate-argument scenario: variable 1 is created by an operation whose
argument list holds variable 0 twice. -/
def c6s : BState :=
  (op (op (initState "g6") { op := "o" } [] "").2 { op := "o" } [Value.var 0, Value.var 0] "").2

/-- Builder state after one variable creation that requested the base name
`"block"`. -/
def c8s : BState := (op (initState "g8") { op := "o" } [] "block").2

/-- State holding one existing variable and an allocated operation (heap id
1) whose argument list mentions that variable twice, ready for
`create_variable`. -/
def c6pre : BState :=
  let r1 := op (initState "g6") { op := "o" } [] ""
  { r1.2 with
    ops := Function.update r1.2.ops 1
      { opcode := { op := "o" }, args := [Value.var 0, Value.var 0], result := none }
    nops := 2 }

/-- Two-instruction block scenario for exercising `splitblock`: block 0
holds the instruction sequence `[0, 1]`. -/
def c3s : BState :=
  let rb := add_block (initState "g3") [] none none
  let r0 := op rb.2 { op := "a" } [] ""
  let r1 := op r0.2 { op := "b" } [] ""
  block_append (block_append r1.2 0 0) 0 1

/-- Result of splitting the two-instruction block at its second
instruction. -/
def c3split : Except Err (Nat × BState) := splitblock c3s 0 1 none

/-- Two-way-branch scenario for `terminate_block`: block 0 has the two
children 1 and 2 and ends with variable 1, a conditional branch on
variable 0. -/
def c4base : BState :=
  let rb0 := add_block (initState "g4") [] none none
  let rb1 := add_block rb0.2 [0] none none
  let rb2 := add_block rb1.2 [0] none none
  let r0 := op rb2.2 { op := "x" } [] ""
  let r1 := op r0.2 { op := "cbr" } [Value.var 0] ""
  block_append r1.2 0 1

/-- Mapper state over `c4base` in which the condition variable 0 is already
lowered to value 7 and all three blocks are allocated. -/
def c4ms : MState :=
  { base := c4base
    llvm_values := [(0, 7)]
    llvm_blocks := [(0, 0), (1, 1), (2, 2)]
    code := [[], [], []]
    nextVal := 8
    insertPt := 0 }

/-- Mixed-argument scenario for `process_op`: variable 1's operation has one
Variable argument and one Constant argument. -/
def c10base : BState :=
  let r0 := op (initState "ga") { op := "x" } [] ""
  (op r0.2 { op := "add" } [Value.var 0, Value.const 2] "").2

/-- Mapper state over `c10base` with the variable argument already lowered
to value 5. -/
def c10ms : MState :=
  { base := c10base
    llvm_values := [(0, 5)]
    llvm_blocks := []
    code := [[]]
    nextVal := 6
    insertPt := 0 }

/-- Rendering of one `temper` call as a function of the counter it read. -/
def temperOut (name : String) (count : Nat) : String :=
  if name ≠ "" then (if count = 0 then name else name ++ "_" ++ natStr count)
  else natStr count

/-- Occurrences of the variable `a` among an argument list. -/
def countVar (a : Nat) : List Value → Nat
  | [] => 0
  | Value.var i :: l => (if i = a then 1 else 0) + countVar a l
  | Value.const _ :: l => countVar a l

/-- Occurrences of constants among an argument list. -/
def countConsts : List Value → Nat
  | [] => 0
  | Value.var _ :: l => countConsts l
  | Value.const _ :: l => countConsts l + 1

/-! ## Supporting lemmas: decimal rendering -/

theorem ofDigitsRev_digitsRev : ∀ fuel n, n < fuel → ofDigitsRev (digitsRev fuel n) = n := by
  intro fuel
  induction fuel with
  | zero => intro n h; omega
  | succ fuel ih =>
    intro n h
    unfold digitsRev
    by_cases h10 : n < 10
    · simp [h10, ofDigitsRev]
    · have hdiv : n / 10 < fuel := by
        have h1 : n / 10 < n := Nat.div_lt_self (by omega) (by omega)
        omega
      simp [h10, ofDigitsRev, ih (n / 10) hdiv]
      omega

theorem digitsRev_lt_ten : ∀ fuel n d, d ∈ digitsRev fuel n → d < 10 := by
  intro fuel
  induction fuel with
  | zero => intro n d h; simp [digitsRev] at h
  | succ fuel ih =>
    intro n d h
    unfold digitsRev at h
    by_cases h10 : n < 10
    · simp [h10] at h; omega
    · simp [h10] at h
      rcases h with h | h
      · omega
      · exact ih _ _ h

theorem digitsRev_ne_nil (n : Nat) : digitsRev (n + 1) n ≠ [] := by
  unfold digitsRev
  by_cases h10 : n < 10 <;> simp [h10]

theorem digitVal_digitChar (d : Nat) (hd : d < 10) : digitVal (digitChar d) = d := by
  interval_cases d <;> rfl

theorem string_data_inj {s t : String} (h : s.data = t.data) : s = t := by
  cases s; cases t; simp_all

theorem string_data_append (s t : String) : (s ++ t).data = s.data ++ t.data := by
  cases s; cases t; rfl

theorem map_digitVal_digitChar (l : List Nat) (hl : ∀ d ∈ l, d < 10) :
    (l.map digitChar).map digitVal = l := by
  induction l with
  | nil => rfl
  | cons a l ih =>
    have ha : a < 10 := hl a (by simp)
    simp only [List.map_cons, digitVal_digitChar a ha]
    rw [ih (fun d hd => hl d (by simp [hd]))]

theorem natStr_injective : Function.Injective natStr := by
  intro m n h
  have hdata : ((digitsRev (m + 1) m).reverse.map digitChar)
      = ((digitsRev (n + 1) n).reverse.map digitChar) := congrArg String.data h
  have hm : ∀ d ∈ (digitsRev (m + 1) m).reverse, d < 10 := by
    intro d hd
    exact digitsRev_lt_ten _ _ _ (List.mem_reverse.mp hd)
  have hn : ∀ d ∈ (digitsRev (n + 1) n).reverse, d < 10 := by
    intro d hd
    exact digitsRev_lt_ten _ _ _ (List.mem_reverse.mp hd)
  have hrev : (digitsRev (m + 1) m).reverse = (digitsRev (n + 1) n).reverse := by
    rw [← map_digitVal_digitChar _ hm, ← map_digitVal_digitChar _ hn, hdata]
  have hdig : digitsRev (m + 1) m = digitsRev (n + 1) n := List.reverse_injective hrev
  have := ofDigitsRev_digitsRev (m + 1) m (by omega)
  rw [hdig, ofDigitsRev_digitsRev (n + 1) n (by omega)] at this
  omega

theorem natStr_ne_empty (n : Nat) : natStr n ≠ "" := by
  intro h
  have hdata : ((digitsRev (n + 1) n).reverse.map digitChar) = [] := congrArg String.data h
  have := digitsRev_ne_nil n
  simp at hdata
  exact this hdata

/-! ## Supporting lemmas: heap updates and edge folds -/

@[simp] theorem modifyBlock_blocks (s : BState) (i : Nat) (f : BlockData → BlockData) (j : Nat) :
    (modifyBlock s i f).blocks j = if j = i then f (s.blocks i) else s.blocks j := by
  simp [modifyBlock, Function.update_apply]

@[simp] theorem modifyBlock_nblocks (s : BState) (i : Nat) (f : BlockData → BlockData) :
    (modifyBlock s i f).nblocks = s.nblocks := rfl

@[simp] theorem modifyBlock_fgBlocks (s : BState) (i : Nat) (f : BlockData → BlockData) :
    (modifyBlock s i f).fgBlocks = s.fgBlocks := rfl

@[simp] theorem modifyBlock_fgTemper (s : BState) (i : Nat) (f : BlockData → BlockData) :
    (modifyBlock s i f).fgTemper = s.fgTemper := rfl

@[simp] theorem modifyBlock_blockTemper (s : BState) (i : Nat) (f : BlockData → BlockData) :
    (modifyBlock s i f).blockTemper = s.blockTemper := rfl

@[simp] theorem modifyBlock_vars (s : BState) (i : Nat) (f : BlockData → BlockData) :
    (modifyBlock s i f).vars = s.vars := rfl

@[simp] theorem modifyBlock_ops (s : BState) (i : Nat) (f : BlockData → BlockData) :
    (modifyBlock s i f).ops = s.ops := rfl

@[simp] theorem modifyVar_vars (s : BState) (i : Nat) (f : VariableData → VariableData) (j : Nat) :
    (modifyVar s i f).vars j = if j = i then f (s.vars i) else s.vars j := by
  simp [modifyVar, Function.update_apply]

@[simp] theorem modifyVar_fgTemper (s : BState) (i : Nat) (f : VariableData → VariableData) :
    (modifyVar s i f).fgTemper = s.fgTemper := rfl

@[simp] theorem modifyVar_blockTemper (s : BState) (i : Nat) (f : VariableData → VariableData) :
    (modifyVar s i f).blockTemper = s.blockTemper := rfl

@[simp] theorem modifyVar_nvars (s : BState) (i : Nat) (f : VariableData → VariableData) :
    (modifyVar s i f).nvars = s.nvars := rfl

theorem addEdge_children (s : BState) (p c x : Nat) :
    ((addEdge s p c).blocks x).children
      = if x = p then (s.blocks p).children ++ [c] else (s.blocks x).children := by
  by_cases hxc : x = c <;> by_cases hxp : x = p <;>
    simp [addEdge, hxc, hxp] <;> simp_all

theorem addEdge_parents (s : BState) (p c x : Nat) :
    ((addEdge s p c).blocks x).parents
      = if x = c then (s.blocks c).parents ++ [p] else (s.blocks x).parents := by
  by_cases hxc : x = c <;> by_cases hxp : x = p <;>
    simp [addEdge, hxc, hxp] <;> simp_all

theorem addEdge_instrs (s : BState) (p c x : Nat) :
    ((addEdge s p c).blocks x).instrs = (s.blocks x).instrs := by
  by_cases hxc : x = c <;> by_cases hxp : x = p <;>
    simp [addEdge, hxc, hxp] <;> simp_all

theorem addEdge_label (s : BState) (p c x : Nat) :
    ((addEdge s p c).blocks x).label = (s.blocks x).label := by
  by_cases hxc : x = c <;> by_cases hxp : x = p <;>
    simp [addEdge, hxc, hxp] <;> simp_all

@[simp] theorem addEdge_nblocks (s : BState) (p c : Nat) :
    (addEdge s p c).nblocks = s.nblocks := rfl

@[simp] theorem addEdge_fgBlocks (s : BState) (p c : Nat) :
    (addEdge s p c).fgBlocks = s.fgBlocks := rfl

@[simp] theorem addEdge_fgTemper (s : BState) (p c : Nat) :
    (addEdge s p c).fgTemper = s.fgTemper := rfl

@[simp] theorem addEdge_blockTemper (s : BState) (p c : Nat) :
    (addEdge s p c).blockTemper = s.blockTemper := rfl

theorem add_children_children_self : ∀ (cs : List Nat) (s : BState) (x : Nat),
    ((add_children s x cs).blocks x).children = (s.blocks x).children ++ cs := by
  intro cs
  induction cs with
  | nil => intro s x; simp [add_children]
  | cons c cs ih =>
    intro s x
    show ((add_children (addEdge s x c) x cs).blocks x).children = _
    rw [ih, addEdge_children]
    simp

theorem add_children_children_ne : ∀ (cs : List Nat) (s : BState) (x y : Nat), y ≠ x →
    ((add_children s x cs).blocks y).children = (s.blocks y).children := by
  intro cs
  induction cs with
  | nil => intro s x y _; simp [add_children]
  | cons c cs ih =>
    intro s x y hyx
    show ((add_children (addEdge s x c) x cs).blocks y).children = _
    rw [ih _ _ _ hyx, addEdge_children]
    simp [hyx]

theorem add_children_instrs : ∀ (cs : List Nat) (s : BState) (x y : Nat),
    ((add_children s x cs).blocks y).instrs = (s.blocks y).instrs := by
  intro cs
  induction cs with
  | nil => intro s x y; simp [add_children]
  | cons c cs ih =>
    intro s x y
    show ((add_children (addEdge s x c) x cs).blocks y).instrs = _
    rw [ih, addEdge_instrs]

theorem add_children_nblocks : ∀ (cs : List Nat) (s : BState) (x : Nat),
    (add_children s x cs).nblocks = s.nblocks := by
  intro cs
  induction cs with
  | nil => intro s x; simp [add_children]
  | cons c cs ih =>
    intro s x
    show (add_children (addEdge s x c) x cs).nblocks = _
    rw [ih]; rfl

theorem add_parents_label : ∀ (ps : List Nat) (s : BState) (b x : Nat),
    ((add_parents s b ps).blocks x).label = (s.blocks x).label := by
  intro ps
  induction ps with
  | nil => intro s b x; simp [add_parents]
  | cons p ps ih =>
    intro s b x
    show ((add_parents (addEdge s p b) b ps).blocks x).label = _
    rw [ih, addEdge_label]

theorem add_parents_fgTemper : ∀ (ps : List Nat) (s : BState) (b : Nat),
    (add_parents s b ps).fgTemper = s.fgTemper := by
  intro ps
  induction ps with
  | nil => intro s b; simp [add_parents]
  | cons p ps ih =>
    intro s b
    show (add_parents (addEdge s p b) b ps).fgTemper = _
    rw [ih]; rfl

theorem add_parents_blockTemper : ∀ (ps : List Nat) (s : BState) (b : Nat),
    (add_parents s b ps).blockTemper = s.blockTemper := by
  intro ps
  induction ps with
  | nil => intro s b; simp [add_parents]
  | cons p ps ih =>
    intro s b
    show (add_parents (addEdge s p b) b ps).blockTemper = _
    rw [ih]; rfl

theorem detachFold_children (b : Nat) : ∀ (cs : List Nat) (s : BState) (x : Nat),
    ((cs.foldl (fun s c => modifyBlock s c
        (fun bd => { bd with parents := bd.parents.filter (fun p => p != b) })) s).blocks x).children
      = (s.blocks x).children := by
  intro cs
  induction cs with
  | nil => intro s x; rfl
  | cons c cs ih =>
    intro s x
    rw [List.foldl_cons, ih]
    by_cases hxc : x = c <;> simp [hxc]

theorem detachFold_instrs (b : Nat) : ∀ (cs : List Nat) (s : BState) (x : Nat),
    ((cs.foldl (fun s c => modifyBlock s c
        (fun bd => { bd with parents := bd.parents.filter (fun p => p != b) })) s).blocks x).instrs
      = (s.blocks x).instrs := by
  intro cs
  induction cs with
  | nil => intro s x; rfl
  | cons c cs ih =>
    intro s x
    rw [List.foldl_cons, ih]
    by_cases hxc : x = c <;> simp [hxc]

theorem detachFold_nblocks (b : Nat) : ∀ (cs : List Nat) (s : BState),
    (cs.foldl (fun s c => modifyBlock s c
        (fun bd => { bd with parents := bd.parents.filter (fun p => p != b) })) s).nblocks
      = s.nblocks := by
  intro cs
  induction cs with
  | nil => intro s; rfl
  | cons c cs ih =>
    intro s
    rw [List.foldl_cons, ih]; rfl

theorem detach_children_children (s : BState) (b x : Nat) :
    ((detach_children s b).blocks x).children
      = if x = b then [] else (s.blocks x).children := by
  simp only [detach_children]
  by_cases hxb : x = b <;> simp [hxb, detachFold_children]

theorem detach_children_instrs (s : BState) (b x : Nat) :
    ((detach_children s b).blocks x).instrs = (s.blocks x).instrs := by
  simp only [detach_children]
  by_cases hxb : x = b <;> simp [hxb, detachFold_instrs]

theorem detach_children_nblocks (s : BState) (b : Nat) :
    (detach_children s b).nblocks = s.nblocks := by
  simp only [detach_children]
  simp [detachFold_nblocks]

theorem indexOf_split : ∀ (l : List Nat) (x : Nat), x ∈ l →
    ∃ i, indexOf l x = some i ∧ l.drop i = x :: l.drop (i + 1) ∧ x ∉ l.take i := by
  intro l
  induction l with
  | nil => intro x hx; simp at hx
  | cons a l ih =>
    intro x hx
    by_cases hax : a = x
    · exact ⟨0, by simp [indexOf, hax], by simp [hax], by simp⟩
    · have hxl : x ∈ l := by
        rcases List.mem_cons.mp hx with h | h
        · exact absurd h.symm hax
        · exact h
      obtain ⟨i, hfind, hdrop, htake⟩ := ih x hxl
      refine ⟨i + 1, ?_, ?_, ?_⟩
      · simp [indexOf, hax, hfind]
      · simpa using hdrop
      · simp [htake]
        omega

/-! ## Supporting lemmas: effect of `add_block` on a single parent -/

theorem add_block_single_parent (s : BState) (b : Nat) (nameOpt : Option String)
    (hb : b ≠ s.nblocks) :
    (add_block s [b] nameOpt none).1 = s.nblocks ∧
    ((add_block s [b] nameOpt none).2.blocks b).children = (s.blocks b).children ++ [s.nblocks] ∧
    ((add_block s [b] nameOpt none).2.blocks s.nblocks).children = [] ∧
    ((add_block s [b] nameOpt none).2.blocks s.nblocks).instrs = [] ∧
    ((add_block s [b] nameOpt none).2.blocks b).instrs = (s.blocks b).instrs ∧
    (add_block s [b] nameOpt none).2.nblocks = s.nblocks + 1 := by
  refine ⟨rfl, ?_, ?_, ?_, ?_, rfl⟩
  · show ((addEdge _ b s.nblocks).blocks b).children = _
    rw [addEdge_children]
    simp [hb]
  · show ((addEdge _ b s.nblocks).blocks s.nblocks).children = _
    rw [addEdge_children]
    simp [Ne.symm hb, hb]
  · show ((addEdge _ b s.nblocks).blocks s.nblocks).instrs = _
    rw [addEdge_instrs]
    simp
  · show ((addEdge _ b s.nblocks).blocks b).instrs = _
    rw [addEdge_instrs]
    simp [hb]

theorem add_block_fst (s : BState) (ps : List Nat) (nameOpt : Option String) (pos : Option Nat) :
    (add_block s ps nameOpt pos).1 = s.nblocks := rfl

/-! ## Claim C3 -/

/-- C3: for every block `b` and instruction `instr` present in `b.instrs`,
after `b2 = splitblock(b, instr)` the concatenation `b.instrs ++ b2.instrs`
equals `b`'s former instruction sequence, `b` keeps the instructions
strictly before (the first occurrence of) `instr` while `b2` receives those
from `instr` onward inclusive, `b2`'s children equal `b`'s former children,
and `b`'s children become exactly `[b2]`. -/
theorem C3_splitblock_spec (s : BState) (b instr nb : Nat) (s' : BState)
    (hb : b < s.nblocks) (hmem : instr ∈ (s.blocks b).instrs)
    (hrun : splitblock s b instr none = Except.ok (nb, s')) :
    nb = s.nblocks ∧
    (∃ i, indexOf (s.blocks b).instrs instr = some i ∧
      (s'.blocks b).instrs = (s.blocks b).instrs.take i ∧
      (s'.blocks nb).instrs = (s.blocks b).instrs.drop i ∧
      (s.blocks b).instrs.drop i = instr :: (s.blocks b).instrs.drop (i + 1) ∧
      instr ∉ (s.blocks b).instrs.take i) ∧
    (s'.blocks b).instrs ++ (s'.blocks nb).instrs = (s.blocks b).instrs ∧
    (s'.blocks nb).children = (s.blocks b).children ∧
    (s'.blocks b).children = [nb] := by
  have hb1 : b ≠ (detach_children s b).nblocks := by
    rw [detach_children_nblocks]; omega
  obtain ⟨i, hidx, hdrop, htake⟩ := indexOf_split _ _ hmem
  simp only [splitblock] at hrun
  set s1 := detach_children s b with hs1
  set s2 := add_children (add_block s1 [b] none none).2 (add_block s1 [b] none none).1
      (s.blocks b).children with hs2
  have bundle := add_block_single_parent s1 b none hb1
  have hnb : (add_block s1 [b] none none).1 = s.nblocks := by
    rw [add_block_fst, hs1, detach_children_nblocks]
  have hbA : b ≠ (add_block s1 [b] none none).1 := by
    rw [hnb]; omega
  have hinstrs2 : (s2.blocks b).instrs = (s.blocks b).instrs := by
    rw [hs2, add_children_instrs]
    have h1 := bundle.2.2.2.2.1
    rw [h1, hs1, detach_children_instrs]
  have h2children_nb : (s2.blocks (add_block s1 [b] none none).1).children
      = (s.blocks b).children := by
    rw [hs2, add_children_children_self]
    have h1 : ((add_block s1 [b] none none).2.blocks (add_block s1 [b] none none).1).children
        = [] := bundle.2.2.1
    rw [h1]
    simp
  have h2children_b : (s2.blocks b).children = [(add_block s1 [b] none none).1] := by
    rw [hs2, add_children_children_ne _ _ _ _ hbA]
    have h1 := bundle.2.1
    rw [h1, hs1, detach_children_children]
    simp
    exact (add_block_fst _ _ _ _).symm
  rw [hinstrs2, hidx] at hrun
  simp only [Except.ok.injEq, Prod.mk.injEq] at hrun
  obtain ⟨hnb2, hs'⟩ := hrun
  subst hnb2
  subst hs'
  refine ⟨hnb, ⟨i, hidx, ?_, ?_, hdrop, htake⟩, ?_, ?_, ?_⟩
  · simp [modifyBlock_blocks, hbA]
  · simp [modifyBlock_blocks, Ne.symm hbA]
  · simp [modifyBlock_blocks, hbA, Ne.symm hbA]
  · simp [modifyBlock_blocks, Ne.symm hbA, h2children_nb]
  · simp [modifyBlock_blocks, hbA, Ne.symm hbA, h2children_b]

/-- Witness for C3: the split of the concrete two-instruction block at its
second instruction, with every hypothesis discharged on that input. -/
theorem C3_splitblock_spec_witness :
    (0 < c3s.nblocks ∧ 1 ∈ (c3s.blocks 0).instrs) ∧
    (1 = c3s.nblocks ∧
      (∃ i, indexOf (c3s.blocks 0).instrs 1 = some i ∧
        (((okSplitD c3split).2).blocks 0).instrs = (c3s.blocks 0).instrs.take i ∧
        (((okSplitD c3split).2).blocks 1).instrs = (c3s.blocks 0).instrs.drop i ∧
        (c3s.blocks 0).instrs.drop i = 1 :: (c3s.blocks 0).instrs.drop (i + 1) ∧
        1 ∉ (c3s.blocks 0).instrs.take i) ∧
      (((okSplitD c3split).2).blocks 0).instrs ++ (((okSplitD c3split).2).blocks 1).instrs
        = (c3s.blocks 0).instrs ∧
      (((okSplitD c3split).2).blocks 1).children = (c3s.blocks 0).children ∧
      (((okSplitD c3split).2).blocks 0).children = [1]) :=
  ⟨⟨by decide, by decide⟩,
    C3_splitblock_spec c3s 0 1 1 ((okSplitD c3split).2) (by decide) (by decide) rfl⟩

/-! ## Claim C6 -/

theorem usesFold_count (vid a : Nat) : ∀ (args : List Value) (t : BState),
    List.count vid (((args.foldl (fun s x =>
        match x with
        | Value.var i => modifyVar s i (fun v => { v with uses := v.uses ++ [vid] })
        | Value.const _ => s) t).vars a).uses)
      = List.count vid ((t.vars a).uses) + countVar a args := by
  intro args
  induction args with
  | nil => intro t; simp [countVar]
  | cons x args ih =>
    intro t
    cases x with
    | var i =>
      rw [List.foldl_cons, ih]
      by_cases hai : a = i
      · subst hai
        simp [countVar, List.count_append]
        omega
      · simp [countVar, hai, Ne.symm hai]
    | const c =>
      rw [List.foldl_cons, ih]
      simp [countVar]

/-- C6 counterexample: the claim demands that the defining variable appears
in an argument's use list exactly once, but when the argument occurs twice
in the argument list (variable 0 in `c6s`), the new variable (1) is
appended to its use list once per occurrence, so it appears twice. -/
theorem C6_counterexample_duplicate_argument :
    Value.var 0 ∈ (c6s.ops ((c6s.vars 1).operation)).args ∧
    (Value.var 0).is_var = true ∧
    List.count 1 ((c6s.vars 0).uses) = 2 ∧ (2 : Nat) ≠ 1 := by
  decide

/-- C6 (amended): for every variable `v` created by `create_variable` in a
state whose existing use lists only mention existing variables, and every
variable `a`, `v` appears in `a`'s use list exactly as many times as
`Variable a` occurs in the defining operation's argument list — in
particular exactly once when `a` occurs exactly once. -/
theorem C6_uses_count (s : BState) (opId : Nat) (name : String) (a : Nat)
    (ha : ∀ u ∈ (s.vars a).uses, u < s.nvars) :
    (create_variable s opId name).1 = s.nvars ∧
    List.count s.nvars (((create_variable s opId name).2.vars a).uses)
      = countVar a ((s.ops opId).args) := by
  refine ⟨rfl, ?_⟩
  simp only [create_variable]
  rw [usesFold_count]
  by_cases hav : a = s.nvars
  · subst hav
    simp [Function.update_apply]
  · have hnot : s.nvars ∉ (s.vars a).uses := by
      intro hmemu
      have := ha _ hmemu
      omega
    simp [Function.update_apply, hav, List.count_eq_zero_of_not_mem hnot]

/-- Witness for C6: creating the variable for the duplicate-argument
operation of `c6pre` puts the new variable id (1) into variable 0's use
list exactly `countVar 0 args = 2` times. -/
theorem C6_uses_count_witness :
    (∀ u ∈ (c6pre.vars 0).uses, u < c6pre.nvars) ∧
    ((create_variable c6pre 1 "").1 = c6pre.nvars ∧
      List.count c6pre.nvars (((create_variable c6pre 1 "").2.vars 0).uses)
        = countVar 0 ((c6pre.ops 1).args)) :=
  ⟨by decide, C6_uses_count c6pre 1 "" 0 (by decide)⟩

/-! ## Claim C7 -/

theorem temperSeq_formula : ∀ (k : Nat) (t : TemperState) (name : String),
    temperSeq t name k
      = (List.range k).map (fun i => temperOut name ((lookupA t name).getD 0 + i)) := by
  intro k
  induction k with
  | zero => intro t name; simp [temperSeq]
  | succ k ih =>
    intro t name
    show (temper t name).1 :: temperSeq (temper t name).2 name k = _
    rw [ih]
    have h2 : (temper t name).2 = (name, (lookupA t name).getD 0 + 1) :: t := rfl
    rw [h2]
    have h3 : (lookupA ((name, (lookupA t name).getD 0 + 1) :: t) name).getD 0
        = (lookupA t name).getD 0 + 1 := by simp [lookupA]
    rw [h3, List.range_succ_eq_map]
    simp only [List.map_cons, List.map_map]
    refine congrArg₂ List.cons ?_ ?_
    · show (temper t name).1 = temperOut name ((lookupA t name).getD 0 + 0)
      simp [temper, temperOut]
    · apply List.map_congr_left
      intro i _
      show temperOut name ((lookupA t name).getD 0 + 1 + i)
          = temperOut name ((lookupA t name).getD 0 + (i + 1))
      congr 1
      omega

theorem natStr_data_length_pos (n : Nat) : 0 < (natStr n).data.length := by
  rcases h : (natStr n).data with _ | ⟨c, l⟩
  · exact absurd (string_data_inj (s := natStr n) (t := "") h) (natStr_ne_empty n)
  · simp

theorem underscore_data : ("_" : String).data = ['_'] := rfl

theorem temper_name_form_injective (name : String) :
    Function.Injective (fun i => if i = 0 then name else name ++ "_" ++ natStr i) := by
  intro x y hxy
  simp only at hxy
  by_cases hx : x = 0 <;> by_cases hy : y = 0
  · omega
  · rw [if_pos hx, if_neg hy] at hxy
    have hd := congrArg String.data hxy
    rw [string_data_append, string_data_append, underscore_data] at hd
    have hlen := congrArg List.length hd
    have := natStr_data_length_pos y
    simp at hlen
  · rw [if_neg hx, if_pos hy] at hxy
    have hd := congrArg String.data hxy
    rw [string_data_append, string_data_append, underscore_data] at hd
    have hlen := congrArg List.length hd
    have := natStr_data_length_pos x
    simp at hlen
  · rw [if_neg hx, if_neg hy] at hxy
    have hd := congrArg String.data hxy
    rw [string_data_append, string_data_append, string_data_append, string_data_append,
      underscore_data] at hd
    rw [List.append_assoc, List.append_assoc] at hd
    have hd2 := List.append_cancel_left hd
    simp only [List.cons_append, List.nil_append, List.cons.injEq] at hd2
    exact natStr_injective (string_data_inj hd2.2)

/-- C7 counterexample: for the empty base name the second request returns
the decimal counter `"1"`, not the `"{name}_{n}"` format (which would give
`"_1"`) that the claim mandates for every subsequent request. -/
theorem C7_counterexample_empty_name :
    temperSeq [] "" 2 = ["0", "1"] ∧
    ("" ++ "_" ++ natStr 1) = "_1" ∧
    ("1" : String) ≠ "_1" := by
  decide

/-- C7 (amended): from a fresh naming-service instance, the k-th request
(1-indexed) for a nonempty base name returns the name itself first and
`"{name}_{k-1}"` thereafter, while every request for the empty base name
returns the decimal counter `"0", "1", ...`; the returned names are
pairwise distinct in every case. -/
theorem C7_temper_spec (name : String) (k : Nat) :
    temperSeq [] name k
      = (List.range k).map (fun i =>
          if name = "" then natStr i else if i = 0 then name else name ++ "_" ++ natStr i) ∧
    (temperSeq [] name k).Nodup := by
  have hform : temperSeq [] name k
      = (List.range k).map (fun i =>
          if name = "" then natStr i else if i = 0 then name else name ++ "_" ++ natStr i) := by
    rw [temperSeq_formula]
    apply List.map_congr_left
    intro i _
    show temperOut name ((lookupA ([] : TemperState) name).getD 0 + i) = _
    have : (lookupA ([] : TemperState) name).getD 0 + i = i := by simp [lookupA]
    rw [this]
    by_cases hname : name = ""
    · simp [temperOut, hname]
    · simp [temperOut, hname]
  refine ⟨hform, ?_⟩
  rw [hform]
  by_cases hname : name = ""
  · simp only [hname, if_pos rfl]
    exact (List.nodup_range k).map natStr_injective
  · have : (fun i => if name = "" then natStr i
        else if i = 0 then name else name ++ "_" ++ natStr i)
        = (fun i => if i = 0 then name else name ++ "_" ++ natStr i) := by
      funext i
      simp [hname]
    rw [this]
    exact (List.nodup_range k).map (temper_name_form_injective name)

/-! ## Claim C8 -/

theorem usesFold_name (vid : Nat) : ∀ (args : List Value) (t : BState) (x : Nat),
    ((args.foldl (fun s a =>
        match a with
        | Value.var i => modifyVar s i (fun v => { v with uses := v.uses ++ [vid] })
        | Value.const _ => s) t).vars x).name = (t.vars x).name := by
  intro args
  induction args with
  | nil => intro t x; rfl
  | cons a args ih =>
    intro t x
    cases a with
    | var i =>
      rw [List.foldl_cons, ih]
      by_cases hxi : x = i <;> simp [hxi]
    | const c =>
      rw [List.foldl_cons, ih]

theorem usesFold_fgTemper (vid : Nat) : ∀ (args : List Value) (t : BState),
    (args.foldl (fun s a =>
        match a with
        | Value.var i => modifyVar s i (fun v => { v with uses := v.uses ++ [vid] })
        | Value.const _ => s) t).fgTemper = t.fgTemper := by
  intro args
  induction args with
  | nil => intro t; rfl
  | cons a args ih =>
    intro t
    cases a with
    | var i => rw [List.foldl_cons, ih]; rfl
    | const c => rw [List.foldl_cons, ih]

theorem usesFold_blockTemper (vid : Nat) : ∀ (args : List Value) (t : BState),
    (args.foldl (fun s a =>
        match a with
        | Value.var i => modifyVar s i (fun v => { v with uses := v.uses ++ [vid] })
        | Value.const _ => s) t).blockTemper = t.blockTemper := by
  intro args
  induction args with
  | nil => intro t; rfl
  | cons a args ih =>
    intro t
    cases a with
    | var i => rw [List.foldl_cons, ih]; rfl
    | const c => rw [List.foldl_cons, ih]

/-- C8 counterexample: block labels react to variable-name requests. On a
fresh builder `add_block` labels the first block `"block"`; after a single
`create_variable` call that requested the base name `"block"` (via `op`),
the identical `add_block` call labels it `"block_1"` instead, while the
`FunctionGraph`'s own naming service was never consulted (its state is
untouched). -/
theorem C8_counterexample_label_interference :
    ((add_block (initState "g8") [] none none).2.blocks 0).label = "block" ∧
    ((add_block c8s [] none none).2.blocks 0).label = "block_1" ∧
    c8s.fgTemper = (initState "g8").fgTemper ∧
    ("block_1" : String) ≠ "block" := by
  decide

/-- C8 (amended): block labels are drawn from the `OperationBuilder`'s own
`block_temper`, the same instance `create_variable` draws variable names
from (so variable-name requests can influence later block labels), and
neither operation consults or advances the `FunctionGraph`'s per-graph
naming service. -/
theorem C8_label_from_builder_temper (s : BState) (parents : List Nat)
    (nameOpt : Option String) (pos : Option Nat) (opId : Nat) (nm : String) :
    ((add_block s parents nameOpt pos).2.blocks (add_block s parents nameOpt pos).1).label
      = (temper s.blockTemper (blockBaseName nameOpt)).1 ∧
    (add_block s parents nameOpt pos).2.blockTemper
      = (temper s.blockTemper (blockBaseName nameOpt)).2 ∧
    (add_block s parents nameOpt pos).2.fgTemper = s.fgTemper ∧
    ((create_variable s opId nm).2.vars (create_variable s opId nm).1).name
      = (temper s.blockTemper nm).1 ∧
    (create_variable s opId nm).2.blockTemper = (temper s.blockTemper nm).2 ∧
    (create_variable s opId nm).2.fgTemper = s.fgTemper := by
  refine ⟨?_, ?_, ?_, ?_, ?_, ?_⟩
  · show ((add_parents _ s.nblocks parents).blocks s.nblocks).label = _
    rw [add_parents_label]
    simp [Function.update_apply]
  · show (add_parents _ s.nblocks parents).blockTemper = _
    rw [add_parents_blockTemper]
  · show (add_parents _ s.nblocks parents).fgTemper = _
    rw [add_parents_fgTemper]
  · show ((create_variable s opId nm).2.vars s.nvars).name = _
    simp only [create_variable]
    rw [usesFold_name]
    simp [Function.update_apply]
  · simp only [create_variable]
    rw [usesFold_blockTemper]
  · simp only [create_variable]
    rw [usesFold_fgTemper]

/-! ## Claim C9 -/

theorem llvm_operation_base (ctx : OperationContext) (ms : MState) (o : OperationData)
    (args : List Nat) : (llvm_operation ctx ms o args).1.base = ms.base := rfl

theorem process_op_base (ctx : OperationContext) (ms : MState) (v : Nat) :
    (process_op ctx ms v).1.base = ms.base := by
  simp only [process_op]
  split <;> rfl

theorem processOps_base (ctx : OperationContext) : ∀ (l : List Nat) (ms : MState),
    (processOps ctx ms l).1.base = ms.base := by
  intro l
  induction l with
  | nil => intro ms; rfl
  | cons v vs ih =>
    intro ms
    have hpo : (process_op ctx ms v).1.base = ms.base := process_op_base ctx ms v
    unfold processOps
    rcases h : process_op ctx ms v with ⟨ms', e⟩
    rw [h] at hpo
    cases e with
    | ok u =>
      show (processOps ctx ms' vs).1.base = ms.base
      rw [ih]
      simpa using hpo
    | error err =>
      show ms'.base = ms.base
      simpa using hpo

theorem terminate_block_base (ctx : OperationContext) (ms : MState) (b : Nat) :
    (terminate_block ctx ms b).1.base = ms.base := by
  simp only [terminate_block]
  repeat' split
  all_goals rfl

theorem pair_base_of_eq {r : MState × Except Err Unit} {ms1 : MState} {e : Except Err Unit}
    (h : r = (ms1, e)) : ms1.base = r.1.base := by rw [h]

theorem emitBlock_base (ctx : OperationContext) (ms : MState) (b : Nat) :
    (emitBlock ctx ms b).1.base = ms.base := by
  simp only [emitBlock]
  split
  · rfl
  · rename_i lb hlb
    split
    · rename_i ms1 e heq
      have h1 := pair_base_of_eq heq
      rw [processOps_base] at h1
      exact h1
    · rename_i ms1 u heq
      have h1 := pair_base_of_eq heq
      rw [processOps_base] at h1
      split
      · rename_i succ
        split
        · rename_i ms2 e2 heq2
          show ms2.base = ms.base
          split at heq2
          · have := congrArg (fun p => p.1.base) heq2
            simp at this
            rw [← this, h1]
          · have := congrArg (fun p => p.1.base) heq2
            simp [process_op_base] at this
            rw [← this, h1]
        · rename_i ms2 u2 heq2
          have h2 : ms2.base = ms.base := by
            split at heq2
            · have := congrArg (fun p => p.1.base) heq2
              simp at this
              rw [← this, h1]
            · have := congrArg (fun p => p.1.base) heq2
              simp [process_op_base] at this
              rw [← this, h1]
          split
          · exact h2
          · exact h2
      · rename_i hnot
        split
        · rw [terminate_block_base, h1]
        · exact h1

theorem emitBlocks_base (ctx : OperationContext) : ∀ (l : List Nat) (ms : MState),
    (emitBlocks ctx ms l).1.base = ms.base := by
  intro l
  induction l with
  | nil => intro ms; rfl
  | cons b bs ih =>
    intro ms
    have hb : (emitBlock ctx ms b).1.base = ms.base := emitBlock_base ctx ms b
    unfold emitBlocks
    rcases h : emitBlock ctx ms b with ⟨ms', e⟩
    rw [h] at hb
    cases e with
    | ok u =>
      show (emitBlocks ctx ms' bs).1.base = ms.base
      rw [ih]
      simpa using hb
    | error err =>
      show ms'.base = ms.base
      simpa using hb

theorem allocFold_base (s : BState) : ∀ (l : List Nat) (ms : MState),
    (l.foldl (fun ms b =>
      { ms with
        llvm_blocks := (b, ms.code.length) :: ms.llvm_blocks
        llvmNames := ms.llvmNames ++ ["block_" ++ (s.blocks b).label]
        code := ms.code ++ [[]] }) ms).base = ms.base := by
  intro l
  induction l with
  | nil => intro ms; rfl
  | cons b bs ih =>
    intro ms
    rw [List.foldl_cons, ih]

theorem allocBlocks_base (s : BState) : (allocBlocks s).base = s := by
  simp only [allocBlocks]
  rw [allocFold_base]

/-- C9: the lowering stage never mutates the source graph. For every
operation context and every graph/builder state, the state embedded in the
mapper after `make_llvm_graph` — whether it succeeded or aborted with an
exception — is exactly the input state: the graph's name, block list, every
block's instructions and parent/child edges, and every variable, operation
and constant are unchanged; all writes go to the mapper's `llvm_values`,
`llvm_blocks` and builder output. -/
theorem C9_lowering_preserves_graph (ctx : OperationContext) (s : BState) :
    (make_llvm_graph ctx s).1.base = s := by
  simp only [make_llvm_graph]
  split
  · exact allocBlocks_base s
  · rename_i b0 bs
    split
    · rename_i ms e heq
      have h1 := pair_base_of_eq heq
      rw [emitBlocks_base, allocBlocks_base] at h1
      exact h1
    · rename_i ms u heq
      have hbase : ms.base = s := by
        have h1 := pair_base_of_eq heq
        rw [emitBlocks_base, allocBlocks_base] at h1
        exact h1
      split
      · exact hbase
      · exact hbase

/-! ## Claim C4 -/

/-- C4: for a block with exactly two children that `terminate_block`
lowers, the last instruction's operation must classify as a terminator and
as a conditional branch — either violation aborts with an assertion error,
leaving nothing emitted — and when the assertions hold, lowering emits
exactly one two-way conditional branch on the already-lowered value of the
operation's condition whose true edge is the mapped first child and whose
false edge is the mapped second child, in the block's child order. -/
theorem C4_terminate_block_spec (ctx : OperationContext) (ms : MState)
    (b c1 c2 v cv lv l1 l2 : Nat) (o : OperationData)
    (hch : (ms.base.blocks b).children = [c1, c2])
    (hlast : (ms.base.blocks b).instrs.getLast? = some v)
    (ho : ms.base.ops ((ms.base.vars v).operation) = o) :
    (ctx.is_terminator o = false →
      terminate_block ctx ms b = (ms, Except.error Err.assertIsTerminator)) ∧
    (ctx.is_terminator o = true → ctx.is_conditional_branch o = false →
      terminate_block ctx ms b = (ms, Except.error Err.assertIsCondBranch)) ∧
    (ctx.is_terminator o = true → ctx.is_conditional_branch o = true →
     ctx.get_condition o = some (Value.var cv) →
     lookupA ms.llvm_values cv = some lv →
     lookupA ms.llvm_blocks c1 = some l1 →
     lookupA ms.llvm_blocks c2 = some l2 →
      terminate_block ctx ms b =
        ({ ms with code := appendAt ms.code ms.insertPt (LLInstr.condbr lv l1 l2) },
         Except.ok ())) := by
  refine ⟨?_, ?_, ?_⟩
  · intro h1
    simp only [terminate_block, hlast, ho, h1]
    simp
  · intro h1 h2
    simp only [terminate_block, hlast, ho, h1, h2]
    simp
  · intro h1 h2 h3 h4 h5 h6
    simp only [terminate_block, hlast, ho, h1, h2, hch, h3, h4, h5, h6]
    simp

/-- Witness for C4: on the concrete two-child block of `c4ms`, whose last
instruction is a conditional branch under `ctxA`, `terminate_block` emits
exactly the conditional branch on the lowered condition value 7 with true
edge 1 and false edge 2. -/
theorem C4_terminate_block_spec_witness :
    ((c4ms.base.blocks 0).children = [1, 2] ∧
     (c4ms.base.blocks 0).instrs.getLast? = some 1) ∧
    terminate_block ctxA c4ms 0
      = ({ c4ms with code := appendAt c4ms.code c4ms.insertPt (LLInstr.condbr 7 1 2) },
         Except.ok ()) :=
  ⟨⟨by decide, by decide⟩,
    (C4_terminate_block_spec ctxA c4ms 0 1 2 1 0 7 1 2
        (c4ms.base.ops ((c4ms.base.vars 1).operation))
        (by decide) (by decide) rfl).2.2
      (by decide) (by decide) (by decide) (by decide) (by decide) (by decide)⟩

/-! ## Claim C10 -/

theorem lookupAll_length (m : List (Nat × Nat)) : ∀ (l : List Nat) (vs : List Nat),
    lookupAll m l = some vs → vs.length = l.length := by
  intro l
  induction l with
  | nil =>
    intro vs h
    simp only [lookupAll] at h
    cases h
    rfl
  | cons i l ih =>
    intro vs h
    simp only [lookupAll] at h
    rcases h1 : lookupA m i with _ | v
    · rw [h1] at h; cases h
    · rw [h1] at h
      rcases h2 : lookupAll m l with _ | ws
      · rw [h2] at h; cases h
      · rw [h2] at h
        cases h
        simp [ih ws h2]

theorem varIds_countConsts : ∀ (l : List Value),
    (varIds l).length + countConsts l = l.length := by
  intro l
  induction l with
  | nil => rfl
  | cons a l ih =>
    cases a with
    | var i => simp [varIds, countConsts]; omega
    | const c => simp [varIds, countConsts]; omega

/-- C10: `process_op` passes only the already-lowered values of the
Variable arguments to the emitted abstract call — Constant arguments are
omitted — while the synthesized symbol name's arity suffix counts all
arguments including Constants; hence whenever at least one argument is a
Constant, the emitted call has strictly fewer arguments than the arity
encoded in its symbol name. -/
theorem C10_process_op_arity (ctx : OperationContext) (ms : MState) (v : Nat)
    (o : OperationData) (lvs : List Nat)
    (ho : ms.base.ops ((ms.base.vars v).operation) = o)
    (hlook : lookupAll ms.llvm_values (varIds o.args) = some lvs) :
    process_op ctx ms v =
      ({ ms with
          code := appendAt ms.code ms.insertPt
            (LLInstr.call (ctx.opname o.opcode ++ "_" ++ natStr o.args.length)
              (ctx.is_boolean_operation o) lvs ms.nextVal)
          llvm_values := (v, ms.nextVal) :: ms.llvm_values
          nextVal := ms.nextVal + 1 }, Except.ok ()) ∧
    lvs.length = (varIds o.args).length ∧
    (1 ≤ countConsts o.args → lvs.length < o.args.length) := by
  refine ⟨?_, ?_, ?_⟩
  · simp only [process_op, ho, hlook, llvm_operation]
  · exact lookupAll_length ms.llvm_values (varIds o.args) lvs hlook
  · intro hconst
    have h1 := lookupAll_length ms.llvm_values (varIds o.args) lvs hlook
    have h2 := varIds_countConsts o.args
    omega

/-- Witness for C10: lowering variable 1 of `c10ms`, whose operation takes
one Variable and one Constant, emits a call to `"add_2"` (arity two in the
name) carrying only the single lowered argument 5. -/
theorem C10_process_op_arity_witness :
    (lookupAll c10ms.llvm_values
        (varIds (c10ms.base.ops ((c10ms.base.vars 1).operation)).args) = some [5]) ∧
    (process_op ctxA c10ms 1 =
      ({ c10ms with
          code := appendAt c10ms.code c10ms.insertPt
            (LLInstr.call
              (ctxA.opname (c10ms.base.ops ((c10ms.base.vars 1).operation)).opcode ++ "_"
                ++ natStr (c10ms.base.ops ((c10ms.base.vars 1).operation)).args.length)
              (ctxA.is_boolean_operation (c10ms.base.ops ((c10ms.base.vars 1).operation)))
              [5] c10ms.nextVal)
          llvm_values := (1, c10ms.nextVal) :: c10ms.llvm_values
          nextVal := c10ms.nextVal + 1 }, Except.ok ()) ∧
    ([5] : List Nat).length
      = (varIds (c10ms.base.ops ((c10ms.base.vars 1).operation)).args).length ∧
    (1 ≤ countConsts (c10ms.base.ops ((c10ms.base.vars 1).operation)).args →
      ([5] : List Nat).length
        < (c10ms.base.ops ((c10ms.base.vars 1).operation)).args.length)) :=
  ⟨by decide,
    C10_process_op_arity ctxA c10ms 1 (c10ms.base.ops ((c10ms.base.vars 1).operation)) [5]
      rfl (by decide)⟩

/-! ## Claim C1 -/

/-- C1: the end-to-end scenario fails on the code. Lowering the
`FunctionGraph "f"` whose single childless entry block holds one pure
binary add of the constants 2 and 3 does not produce a call to `"add_2"`
followed by a synthesized return: because the block has zero children and a
nonempty instruction list, `make_llvm_graph` routes it to
`terminate_block`, whose first assertion (`is_terminator`) fails under the
conventional context — with nothing emitted into the single low-level block
(`code = [[]]`). Even under a context that classifies the add as a
terminator and a conditional branch, the child-count assertion
(`len(children) == 2`, but the block has zero) fails. -/
theorem C1_scenario_assertion_failure :
    is_pure (c1build.ops ((c1build.vars 0).operation)) = true ∧
    (c1build.blocks 0).children = [] ∧
    (c1build.blocks 0).instrs = [0] ∧
    errOf (make_llvm_graph ctxA c1build).2 = some Err.assertIsTerminator ∧
    (make_llvm_graph ctxA c1build).1.code = [[]] ∧
    errOf (make_llvm_graph ctxAllTrue c1build).2 = some Err.assertChildCount := by
  decide

/-! ## Claim C2 -/

/-- C2: the diamond shape fails on the code. After
`if_then_else(block 0, instr 1, cond 2, [3], [4])` on a block with the
single child 1 and instructions `[0, 1]`: `cond_block` (heap block 2) was
attached as a child of block 0 *before* `splitblock` ran, so the split
swept it — together with the real former children — into `exit_block`
(heap block 3), and `detach_parents` then severed the only remaining edge
out of block 0. The result: block 0 has no children at all (so `cond_block`
is not a child of it), `cond_block`'s parent is `exit_block` (a cycle
through the diamond), and `exit_block`'s children are `[1, 2]`, not exactly
the former children `[1]`. The parts of the shape that do hold:
`cond_block`'s children are the two arms `[4, 5]`, `exit_block` is a child
of both arms, and `exit_block` carries the tail `[1]` of the instruction
sequence from `instr` onward. -/
theorem C2_if_then_else_broken_shape :
    isOkE c2res = true ∧
    (c2build.blocks 0).children = [1] ∧
    (c2build.blocks 0).instrs = [0, 1] ∧
    (c2s.blocks 0).children = [] ∧
    (c2s.blocks 2).parents = [3] ∧
    (c2s.blocks 2).children = [4, 5] ∧
    (c2s.blocks 3).children = [1, 2] ∧
    (c2s.blocks 3).parents = [4, 5] ∧
    (c2s.blocks 3).instrs = [1] ∧
    (c2s.blocks 0).instrs = [0] := by
  decide

/-! ## Claim C5 -/

/-- C5: the finalize step consults `is_return` on the Block object
`blocks[-1]` instead of on the last instruction's operation (the
`OperationContext.is_return(operation)` contract). On the concrete graph
whose last (single-child) block ends in a `ret` operation — which the
supplied context classifies as a return (`is_return_op` is true on it) —
lowering still synthesizes a null-value return after the branch, because
`is_return` applied to the Block receiver is not true, so the claim's
"otherwise no such return is synthesized" fails. -/
theorem C5_finalize_return_misclassified :
    isOkE (make_llvm_graph ctx5 c5build).2 = true ∧
    (c5build.blocks 0).instrs = [0] ∧
    ctx5.is_return_op (c5build.ops ((c5build.vars 0).operation)) = true ∧
    (make_llvm_graph ctx5 c5build).1.code
      = [[LLInstr.call "ret_0" false [] 0, LLInstr.br 0, LLInstr.retNull]] := by
  decide

end Flowy
